import Mathlib

/-!
Shallow embedding of the delivery-orchestration core of
`tpdoyle87/simple-email-server`: the in-memory email queue
(`internal/queue`), the delivery service (`internal/delivery/delivery.go`),
the SMTP rendering (`internal/delivery/client.go`) and the email data model
with its validation (`pkg/email/email.go`).

Modelling conventions:
* Go `time.Time` instants and `time.Duration` values are nanosecond counts
  (`Nat`), matching Go's `int64`-nanosecond representation of durations
  (`time.Minute = 60_000_000_000` ns).  Each operation takes the current
  instant `now` as an explicit parameter.
* The Go `MemoryQueue` keeps a slice `emails` and a map `emailMap` whose
  entries alias the same `*email.Email` pointers.  The embedding keeps the
  slice only and represents map lookup as lookup-by-identifier in the slice
  (`findEmail`); this coincides with the Go behaviour whenever identifiers
  are unique in the queue, which is the invariant the code relies on
  ("identifiers are assumed caller-unique").  Pointer mutation that is
  observable outside the queue (Mark* operations mutating the shared email
  object) is modelled by returning the updated email next to the new state.
* Injected capabilities (DNS resolver, SMTP client, `net/mail` address
  parser, the Unicode space predicate of `strings.TrimSpace`) are modelled
  as function parameters.
-/

namespace EmailServer

/-- Status lifecycle constants from `pkg/email/email.go`. -/
inductive Status
  | pending
  | queued
  | sending
  | delivered
  | failed
  | bounced
deriving DecidableEq

/-- Attachment from `pkg/email/email.go`; only the byte payload length is
relevant to the embedded code (the size check of `Validate`), but the bytes
are kept as data. -/
structure Attachment where
  filename : String
  contentType : String
  data : List Nat
deriving DecidableEq

/-- Email record from `pkg/email/email.go`.  `fromAddr` and `toAddrs` embed the Go
fields `From` and `To` (`from` and `to` are Lean keywords); times are
nanosecond instants. -/
structure Email where
  id : String
  fromAddr : String
  toAddrs : List String
  cc : List String
  bcc : List String
  subject : String
  body : String
  html : String
  headers : List (String × String)
  attachments : List Attachment
  status : Status
  retryCount : Nat
  lastError : String
  createdAt : Nat
  updatedAt : Nat
  scheduledAt : Option Nat
  deliveredAt : Option Nat
deriving DecidableEq

/-- Go `time.Minute` in nanoseconds. -/
def timeMinute : Nat := 60000000000

/-- Errors of `internal/queue`: `ErrQueueFull` and `ErrEmailNotFound`. -/
inductive QueueError
  | queueFull
  | emailNotFound
deriving DecidableEq

/-- State of `MemoryQueue`: the `emails` slice and the configured capacity.
The Go `emailMap` is represented by identifier lookup in the slice (see the
file header). -/
structure MemoryQueue where
  emails : List Email
  maxSize : Nat
deriving DecidableEq

/-- Embeds `NewMemoryQueue`. -/
def NewMemoryQueue (maxSize : Nat) : MemoryQueue :=
  { emails := [], maxSize := maxSize }

/-- Embeds `MemoryQueue.Size`: `len(q.emails)`. -/
def MemoryQueue.Size (q : MemoryQueue) : Nat := q.emails.length

/-- Embeds `MemoryQueue.Enqueue`: reject when `len(q.emails) >= q.maxSize`,
otherwise stamp `UpdatedAt` and append.  Note that the Go code does not
touch the message's `Status` field. -/
def MemoryQueue.Enqueue (q : MemoryQueue) (now : Nat) (e : Email) :
    Except QueueError MemoryQueue :=
  if q.maxSize ≤ q.emails.length then
    Except.error QueueError.queueFull
  else
    Except.ok { q with emails := q.emails ++ [{ e with updatedAt := now }] }

/-- Embeds the guard `e.ScheduledAt != nil && e.ScheduledAt.After(now)` of
`MemoryQueue.Dequeue`. -/
def schedFuture (now : Nat) (e : Email) : Bool :=
  match e.scheduledAt with
  | some t => decide (now < t)
  | none => false

/-- Marks a dequeued email as in flight: `e.Status = StatusSending;
e.UpdatedAt = now`. -/
def markSending (now : Nat) (e : Email) : Email :=
  { e with status := Status.sending, updatedAt := now }

/-- Dequeue-eligibility of an email: not scheduled for the future, and
status `queued` (the two `continue` conditions of the Go loop negated). -/
def readyEmail (now : Nat) (e : Email) : Bool :=
  !schedFuture now e && decide (e.status = Status.queued)

/-- Embeds the scan loop of `MemoryQueue.Dequeue`: walk the slice in order
while fewer than `count` messages have been selected; skip future-scheduled
and non-queued entries; mark selected entries as sending.  Returns the
selected messages and the updated slice (in Go the updates happen in place
through the shared pointers). -/
def dequeueLoop (now : Nat) : Nat → List Email → List Email × List Email
  | _, [] => ([], [])
  | 0, es => ([], es)
  | Nat.succ k, e :: rest =>
    if schedFuture now e then
      let p := dequeueLoop now (Nat.succ k) rest
      (p.1, e :: p.2)
    else if e.status ≠ Status.queued then
      let p := dequeueLoop now (Nat.succ k) rest
      (p.1, e :: p.2)
    else
      let p := dequeueLoop now k rest
      (markSending now e :: p.1, markSending now e :: p.2)

/-- Embeds `MemoryQueue.Dequeue`; the Go method always returns a `nil`
error, hence the result is always `Except.ok`. -/
def MemoryQueue.Dequeue (q : MemoryQueue) (now : Nat) (count : Nat) :
    Except QueueError (List Email × MemoryQueue) :=
  Except.ok ((dequeueLoop now count q.emails).1,
    { q with emails := (dequeueLoop now count q.emails).2 })

/-- Embeds the `q.emailMap[id]` lookup (exact under identifier
uniqueness, see the file header). -/
def findEmail (key : String) (es : List Email) : Option Email :=
  es.find? (fun e => e.id == key)

/-- Replaces the (first) email with the given identifier, embedding an
in-place mutation of the email object found through the map. -/
def updateFirst (key : String) (f : Email → Email) : List Email → List Email
  | [] => []
  | e :: es => if e.id == key then f e :: es else e :: updateFirst key f es

/-- Embeds `MemoryQueue.removeEmail`: drop the first slice entry with the
given identifier (the map deletion is implicit in the representation). -/
def removeFirst (key : String) : List Email → List Email
  | [] => []
  | e :: es => if e.id == key then es else e :: removeFirst key es

/-- Mutation applied by `MarkDelivered` to the found email. -/
def deliveredUpdate (now : Nat) (e : Email) : Email :=
  { e with status := Status.delivered, updatedAt := now, deliveredAt := some now }

/-- Embeds `MemoryQueue.MarkDelivered`: `NotFound` when the identifier is
absent; otherwise stamp status/times on the shared email object and remove
it from the queue.  The updated email object (still visible to external
holders of the pointer) is returned next to the new state. -/
def MemoryQueue.MarkDelivered (q : MemoryQueue) (now : Nat) (key : String) :
    Except QueueError (Email × MemoryQueue) :=
  match findEmail key q.emails with
  | none => Except.error QueueError.emailNotFound
  | some e =>
    Except.ok (deliveredUpdate now e,
      { q with emails := removeFirst key q.emails })

/-- Mutation applied by the `retry` branch of `MarkFailed`: record the
error, stamp updated-time, revert to `queued`, increment the retry count,
and schedule the next attempt at `now + retryCount * 5 * time.Minute`
(the Go code computes the delay after the increment, with the literal
`5 * time.Minute`; no configured value is consulted). -/
def failRetryUpdate (now : Nat) (reason : String) (e : Email) : Email :=
  { e with lastError := reason, updatedAt := now, status := Status.queued,
           retryCount := e.retryCount + 1,
           scheduledAt := some (now + (e.retryCount + 1) * (5 * timeMinute)) }

/-- Mutation applied by the non-retry branch of `MarkFailed` before the
email is removed from the queue. -/
def failNoRetryUpdate (now : Nat) (reason : String) (e : Email) : Email :=
  { e with lastError := reason, updatedAt := now, status := Status.failed }

/-- Embeds `MemoryQueue.MarkFailed`.  As with `MarkDelivered`, the mutated
email object is returned next to the new queue state. -/
def MemoryQueue.MarkFailed (q : MemoryQueue) (now : Nat) (key reason : String)
    (retry : Bool) : Except QueueError (Email × MemoryQueue) :=
  match findEmail key q.emails with
  | none => Except.error QueueError.emailNotFound
  | some e =>
    if retry then
      Except.ok (failRetryUpdate now reason e,
        { q with emails := updateFirst key (failRetryUpdate now reason) q.emails })
    else
      Except.ok (failNoRetryUpdate now reason e,
        { q with emails := removeFirst key q.emails })

/-- QueueConfig from `internal/config` (durations in nanoseconds).  The
configuration's `RetryDelay` field exists but is never read by
`MemoryQueue`. -/
structure QueueConfig where
  storagePath : String
  maxSize : Nat
  maxRetry : Nat
  retryDelay : Nat
  batchSize : Nat
deriving DecidableEq

/-- Mail-exchanger record (`net.MX`). -/
structure MX where
  host : String
  pref : Nat
deriving DecidableEq

/-- DeliveryConfig from `internal/config` (durations in nanoseconds). -/
structure DeliveryConfig where
  workers : Nat
  dnsCacheTTL : Nat
  connectionTimeout : Nat
  connectionPoolSize : Nat
deriving DecidableEq

/-- Entry of the delivery service's DNS cache (`dnsCacheEntry`). -/
structure DnsCacheEntry where
  mx : List MX
  expiresAt : Nat
deriving DecidableEq

/-- The DNS cache map, keyed by domain; the most recent insertion shadows
older entries, embedding Go map overwrite. -/
abbrev DnsCache := List (String × DnsCacheEntry)

/-- Pure state of `delivery.Service`: the configuration, the hardcoded
`maxRetry` default, and the DNS cache.  The injected resolver and SMTP
client are passed to the functions that use them. -/
structure Service where
  config : DeliveryConfig
  maxRetry : Nat
  dnsCache : DnsCache
deriving DecidableEq

/-- Embeds `NewService`: the DNS cache starts empty and `maxRetry` is set
to the literal `5` ("Default max retry"); `cfg` carries no max-retry
field. -/
def NewService (cfg : DeliveryConfig) : Service :=
  { config := cfg, maxRetry := 5, dnsCache := [] }

/-- Embeds the map lookup `s.dnsCache[domain]`. -/
def lookupCache (cache : DnsCache) (domain : String) : Option DnsCacheEntry :=
  (cache.find? (fun p => p.1 == domain)).map (fun p => p.2)

/-- Resolver-and-store path of `getMXRecords`: call the injected resolver;
on error return it with the cache unchanged; on success store the result
with expiry `now + ttl` and return it.  The third component records that
the resolver was invoked. -/
def resolveAndCache (ttl : Nat) (resolve : String → Except String (List MX))
    (cache : DnsCache) (now : Nat) (domain : String) :
    Except String (List MX) × DnsCache × Bool :=
  match resolve domain with
  | Except.error msg => (Except.error msg, cache, true)
  | Except.ok mx =>
    (Except.ok mx, (domain, { mx := mx, expiresAt := now + ttl }) :: cache, true)

/-- Embeds `Service.getMXRecords`: a present entry with
`entry.expiresAt.After(now)` is a cache hit returning `entry.mx` without
calling the resolver; otherwise fall through to the resolver. -/
def getMXRecords (ttl : Nat) (resolve : String → Except String (List MX))
    (cache : DnsCache) (now : Nat) (domain : String) :
    Except String (List MX) × DnsCache × Bool :=
  match lookupCache cache domain with
  | some entry =>
    if now < entry.expiresAt then (Except.ok entry.mx, cache, false)
    else resolveAndCache ttl resolve cache now domain
  | none => resolveAndCache ttl resolve cache now domain

/-- Splitting a character list at every occurrence of a separator,
embedding `strings.Split` with a one-character separator (`Split` on the
empty string yields one empty part, as in Go). -/
def splitOnChar (sep : Char) : List Char → List (List Char)
  | [] => [[]]
  | c :: cs =>
    match splitOnChar sep cs with
    | [] => [[]]
    | h :: t => if c = sep then [] :: h :: t else (c :: h) :: t

/-- Embeds `extractDomain`: split the address on "@"; unless that yields
exactly two parts the result is the empty string, otherwise it is the part
after the "@". -/
def extractDomain (s : String) : String :=
  match splitOnChar '@' s.data with
  | [_, d] => String.mk d
  | _ => ""

/-- Errors produced by `Service.processEmail`, in the order the Go code
creates them ("no recipients", "invalid recipient domain", "failed to get
MX records: %w", "all MX servers failed: %w", "no MX servers found"). -/
inductive DeliveryError
  | noRecipients
  | invalidDomain
  | mxLookupFailed (msg : String)
  | allTargetsFailed (lastMsg : String)
  | noTargets
deriving DecidableEq

/-- Embeds the host loop of `processEmail`.  `send host = none` means the
SMTP client succeeded for that host, `some msg` that it failed with `msg`.
The first component is the trace of hosts actually attempted, the second
the result: success on the first succeeding host, otherwise
`allTargetsFailed` wrapping the last recorded error, or `noTargets` when
no error was ever recorded. -/
def tryHosts (send : String → Option String) :
    List MX → Option String → List String × Except DeliveryError Unit
  | [], lastErr =>
    match lastErr with
    | some msg => ([], Except.error (DeliveryError.allTargetsFailed msg))
    | none => ([], Except.error DeliveryError.noTargets)
  | mx :: rest, _ =>
    match send mx.host with
    | none => ([mx.host], Except.ok ())
    | some msg =>
      let p := tryHosts send rest (some msg)
      (mx.host :: p.1, p.2)

/-- Embeds `Service.processEmail` for a given resolver outcome, returning
the trace of attempted hosts next to the result.  The live DNS cache is
irrelevant to this claim-level view: `resolve` stands for `getMXRecords`'s
result for the domain. -/
def processEmail (e : Email) (resolve : String → Except String (List MX))
    (send : String → Option String) : List String × Except DeliveryError Unit :=
  match e.toAddrs with
  | [] => ([], Except.error DeliveryError.noRecipients)
  | a :: _ =>
    if extractDomain a = "" then
      ([], Except.error DeliveryError.invalidDomain)
    else
      match resolve (extractDomain a) with
      | Except.error msg => ([], Except.error (DeliveryError.mxLookupFailed msg))
      | Except.ok mxRecords => tryHosts send mxRecords none

/-- Embeds the worker's retry decision `shouldRetry := e.RetryCount < s.maxRetry`. -/
def shouldRetryDecision (s : Service) (e : Email) : Bool :=
  decide (e.retryCount < s.maxRetry)

/-- Embeds the outcome handling of `Service.worker` for one processed
email: on success `MarkDelivered`, on failure `MarkFailed` with the
computed retry decision. -/
def workerHandleOutcome (s : Service) (q : MemoryQueue) (now : Nat) (e : Email)
    (outcome : Option String) : Except QueueError (Email × MemoryQueue) :=
  match outcome with
  | none => q.MarkDelivered now e.id
  | some errText => q.MarkFailed now e.id errText (shouldRetryDecision s e)

/-- Reserved-header keys of `isStandardHeader` in
`internal/delivery/client.go`, in source order. -/
def standardHeaderKeys : List String :=
  ["from", "to", "cc", "bcc", "subject", "date", "mime-version", "content-type"]

/-- Lower-casing of a header key (`strings.ToLower`), computed on the
character list.  Header keys are ASCII, for which Go's Unicode folding and
this character-wise folding agree. -/
def asciiLower (s : String) : String :=
  String.mk (s.data.map Char.toLower)

/-- Embeds `isStandardHeader`: lower-case the key and compare against the
reserved list. -/
def isStandardHeader (key : String) : Bool :=
  standardHeaderKeys.contains (asciiLower key)

/-- Embeds the header-assembly part of `writeEmail`.  The `Date` value is
an opaque string parameter (Go formats `time.Now()` with `RFC1123Z`).  The
custom-header map is modelled as an ordered association list; Go's map
iteration order is unspecified and no claim depends on it. -/
def renderedHeaders (dateStr : String) (e : Email) : List String :=
  let headers := ["From: " ++ e.fromAddr,
                  "To: " ++ String.intercalate ", " e.toAddrs,
                  "Subject: " ++ e.subject,
                  "Date: " ++ dateStr,
                  "MIME-Version: 1.0"]
  let headers := if 0 < e.cc.length then
                   headers ++ ["Cc: " ++ String.intercalate ", " e.cc]
                 else headers
  let headers := headers ++
    (e.headers.filter (fun kv => !isStandardHeader kv.1)).map
      (fun kv => kv.1 ++ ": " ++ kv.2)
  headers ++ [if e.html ≠ "" then "Content-Type: text/html; charset=utf-8"
              else "Content-Type: text/plain; charset=utf-8"]

/-- Embeds `writeEmail`: each header followed by CRLF, a blank line, then
the body — the HTML body when present, else the plain body. -/
def writeEmail (dateStr : String) (e : Email) : String :=
  String.join ((renderedHeaders dateStr e).map (fun h => h ++ "\r\n")) ++
    "\r\n" ++ (if e.html ≠ "" then e.html else e.body)

/-- Validation errors of `pkg/email/email.go`. -/
inductive EmailError
  | invalidFrom
  | noRecipients
  | invalidRecipient
  | emptySubject
  | emptyBody
  | messageTooLarge
deriving DecidableEq

/-- Injected judgements `Email.Validate` depends on: whether
`net/mail.ParseAddress` accepts an address, and which characters
`strings.TrimSpace` treats as Unicode white space. -/
structure ValidateEnv where
  parseAddrOk : String → Bool
  isSpace : Char → Bool

/-- Embeds `strings.TrimSpace` for a given space predicate: drop leading
and trailing space characters. -/
def goTrim (isSpace : Char → Bool) (s : String) : String :=
  String.mk (((s.data.dropWhile isSpace).reverse.dropWhile isSpace).reverse)

/-- Byte size `int64(len(e.Body)+len(e.HTML)) + Σ len(att.Data)` used by
the size check of `Validate`. -/
def emailSize (e : Email) : Nat :=
  e.body.utf8ByteSize + e.html.utf8ByteSize +
    (e.attachments.map (fun a => a.data.length)).sum

/-- Embeds `Email.Validate`: the same sequence of checks, returning the
first violated rule or `none` when the email is accepted. -/
def Email.Validate (env : ValidateEnv) (maxMessageSize : Nat) (e : Email) :
    Option EmailError :=
  if e.fromAddr = "" then some EmailError.invalidFrom
  else if !env.parseAddrOk e.fromAddr then some EmailError.invalidFrom
  else if e.toAddrs.length = 0 then some EmailError.noRecipients
  else if e.toAddrs.any (fun a => !env.parseAddrOk a) then some EmailError.invalidRecipient
  else if e.cc.any (fun a => !env.parseAddrOk a) then some EmailError.invalidRecipient
  else if e.bcc.any (fun a => !env.parseAddrOk a) then some EmailError.invalidRecipient
  else if goTrim env.isSpace e.subject = "" then some EmailError.emptySubject
  else if goTrim env.isSpace e.body = "" ∧ goTrim env.isSpace e.html = "" then
    some EmailError.emptyBody
  else if maxMessageSize < emailSize e then some EmailError.messageTooLarge
  else none

/-- Email value with all fields at their Go zero values, used to build the
concrete inputs of witnesses and counterexamples. -/
def emptyEmail : Email :=
  { id := "", fromAddr := "", toAddrs := [], cc := [], bcc := [], subject := "",
    body := "", html := "", headers := [], attachments := [],
    status := Status.pending, retryCount := 0, lastError := "", createdAt := 0,
    updatedAt := 0, scheduledAt := none, deliveredAt := none }

/-- Concrete queued email used by witnesses. -/
def sampleQueuedEmail : Email :=
  { emptyEmail with id := "m1", fromAddr := "s@a.test",
                    toAddrs := ["user@example.com"], subject := "hi",
                    body := "b", status := Status.queued }

/-- Concrete validation environment: every address parses and white space
is ASCII white space. -/
def sampleValidateEnv : ValidateEnv :=
  { parseAddrOk := fun _ => true, isSpace := Char.isWhitespace }

/-- Concrete one-element queue used by witnesses. -/
def sampleQueue : MemoryQueue :=
  { emails := [sampleQueuedEmail], maxSize := 10 }

/-- Concrete queue configuration whose `retryDelay` is one minute, used to
exhibit that `MarkFailed` ignores the configured retry delay. -/
def cexQueueConfig : QueueConfig :=
  { storagePath := "", maxSize := 10, maxRetry := 3, retryDelay := timeMinute,
    batchSize := 5 }

/-- Concrete email whose status is still `pending` when handed to
`Enqueue`, used to exhibit that `Enqueue` does not set the status. -/
def pendingEmail : Email :=
  { emptyEmail with id := "p1", toAddrs := ["user@example.com"],
                    subject := "hi", body := "b", status := Status.pending }

/-- Statement shape of the claim that the maximum retry count is supplied
to the delivery service at construction: every desired bound would have to
be realisable by some constructor argument.  `NewService` refutes this —
its `maxRetry` is the literal `5` for every configuration. -/
def maxRetrySuppliedAtConstruction : Prop :=
  ∀ m : Nat, ∃ cfg : DeliveryConfig, (NewService cfg).maxRetry = m

/-- Modelled from the spec: the reserved-header set exactly as the
specification lists it — From/To/Cc/Subject/Date/MIME-Version/Content-Type,
without Bcc. -/
def specReservedHeaderKeys : List String :=
  ["from", "to", "cc", "subject", "date", "mime-version", "content-type"]

/-- Membership test against the spec's reserved-header set, the
counterpart of `isStandardHeader` for the claim's wording. -/
def isSpecReservedHeader (key : String) : Bool :=
  specReservedHeaderKeys.contains (asciiLower key)

/-- Concrete email carrying a custom `Bcc` header (and a genuinely custom
one), used to exhibit that the code also drops `Bcc` although the spec's
reserved set omits it. -/
def bccHeaderEmail : Email :=
  { emptyEmail with id := "h1", fromAddr := "s@a.test", toAddrs := ["r@b.test"],
                    subject := "s", body := "b",
                    headers := [("Bcc", "hidden@c.test"), ("X-Priority", "1")] }

/-!  Lemmas about the dequeue scan loop. -/

/-- Selected messages of the scan loop are exactly the first `count`
ready messages in insertion order, marked as sending. -/
theorem dequeueLoop_fst (now : Nat) (count : Nat) (es : List Email) :
    (dequeueLoop now count es).1 =
      ((es.filter (readyEmail now)).take count).map (markSending now) := by
  induction es generalizing count with
  | nil => cases count <;> simp [dequeueLoop]
  | cons e rest ih =>
    cases count with
    | zero => simp [dequeueLoop]
    | succ k =>
      by_cases hs : schedFuture now e
      · have hr : readyEmail now e = false := by simp [readyEmail, hs]
        simp [dequeueLoop, hs, hr, ih]
      · by_cases hq : e.status = Status.queued
        · have hr : readyEmail now e = true := by simp [readyEmail, hs, hq]
          simp [dequeueLoop, hs, hq, hr, ih]
        · have hr : readyEmail now e = false := by simp [readyEmail, hs, hq]
          simp [dequeueLoop, hs, hq, hr, ih]

/-- The scan loop preserves the identifier sequence of the stored slice. -/
theorem dequeueLoop_snd_ids (now : Nat) (count : Nat) (es : List Email) :
    ((dequeueLoop now count es).2).map Email.id = es.map Email.id := by
  induction es generalizing count with
  | nil => cases count <;> simp [dequeueLoop]
  | cons e rest ih =>
    cases count with
    | zero => simp [dequeueLoop]
    | succ k =>
      by_cases hs : schedFuture now e
      · simp [dequeueLoop, hs, ih]
      · by_cases hq : e.status = Status.queued
        · simp [dequeueLoop, hs, hq, ih, markSending]
        · simp [dequeueLoop, hs, hq, ih]

/-- Every message returned by the scan loop is also present (updated) in
the resulting slice. -/
theorem dequeueLoop_fst_mem (now : Nat) (count : Nat) (es : List Email) :
    ∀ x ∈ (dequeueLoop now count es).1, x ∈ (dequeueLoop now count es).2 := by
  induction es generalizing count with
  | nil => cases count <;> simp [dequeueLoop]
  | cons e rest ih =>
    cases count with
    | zero => simp [dequeueLoop]
    | succ k =>
      intro x hx
      by_cases hs : schedFuture now e
      · simp only [dequeueLoop, hs, if_true] at hx ⊢
        exact List.mem_cons_of_mem _ (ih _ x hx)
      · by_cases hq : e.status = Status.queued
        · simp only [dequeueLoop, hs, Bool.false_eq_true, if_false] at hx ⊢
          rw [if_neg (not_not_intro hq)] at hx ⊢
          rcases List.mem_cons.mp hx with h | h
          · exact h ▸ List.mem_cons_self _ _
          · exact List.mem_cons_of_mem _ (ih _ x h)
        · simp only [dequeueLoop, hs, Bool.false_eq_true, if_false] at hx ⊢
          rw [if_pos hq] at hx ⊢
          exact List.mem_cons_of_mem _ (ih _ x hx)

/-- C3: `Dequeue(maxCount)` scans the active messages in insertion order
and selects up to `maxCount` messages whose status is `queued` and whose
scheduled-not-before timestamp (if set) is at or before the current
instant — the returned list is exactly the first `maxCount` such messages
in slice order; each selected message is transitioned to `sending` with
its updated-time stamped and appears so in the updated queue; at most
`maxCount` messages are returned (possibly none); and the operation never
returns an error.  The stored identifier sequence is unchanged. -/
theorem dequeue_spec (q : MemoryQueue) (now : Nat) (count : Nat) :
    ∃ q2, q.Dequeue now count =
        Except.ok (((q.emails.filter (readyEmail now)).take count).map
          (markSending now), q2) ∧
      (((q.emails.filter (readyEmail now)).take count).map
        (markSending now)).length ≤ count ∧
      (∀ x ∈ ((q.emails.filter (readyEmail now)).take count).map
          (markSending now),
        x ∈ q2.emails ∧ x.status = Status.sending ∧ x.updatedAt = now) ∧
      q2.emails.map Email.id = q.emails.map Email.id := by
  refine ⟨{ q with emails := (dequeueLoop now count q.emails).2 }, ?_, ?_, ?_, ?_⟩
  · simp [MemoryQueue.Dequeue, dequeueLoop_fst]
  · simp only [List.length_map]
    exact List.length_take_le count (q.emails.filter (readyEmail now))
  · intro x hx
    obtain ⟨y, hy, hxy⟩ := List.mem_map.mp hx
    refine ⟨?_, by rw [← hxy]; rfl, by rw [← hxy]; rfl⟩
    have hx1 : x ∈ (dequeueLoop now count q.emails).1 := by
      rw [dequeueLoop_fst]; exact hx
    exact dequeueLoop_fst_mem now count q.emails x hx1
  · exact dequeueLoop_snd_ids now count q.emails

/-!  Lemmas about identifier lookup, in-place update and removal. -/

/-- An email found by identifier is in the list and carries that
identifier. -/
theorem findEmail_some (key : String) (es : List Email) (e : Email)
    (h : findEmail key es = some e) : e ∈ es ∧ e.id = key := by
  have hm := List.mem_of_find?_eq_some h
  have hp := List.find?_some h
  exact ⟨hm, by simpa using hp⟩

/-- Lookup fails exactly when no stored email carries the identifier. -/
theorem findEmail_none (key : String) (es : List Email) :
    findEmail key es = none ↔ ∀ x ∈ es, x.id ≠ key := by
  unfold findEmail
  rw [List.find?_eq_none]
  constructor
  · intro h x hx
    have := h x hx
    simpa using this
  · intro h x hx
    simpa using h x hx

/-- Updating in place preserves the slice length. -/
theorem updateFirst_length (key : String) (f : Email → Email)
    (es : List Email) : (updateFirst key f es).length = es.length := by
  induction es with
  | nil => rfl
  | cons e rest ih =>
    by_cases h : e.id == key
    · simp [updateFirst, h]
    · simp [updateFirst, h, ih]

/-- Looking up the identifier after an in-place update that preserves
identifiers returns the updated email. -/
theorem findEmail_updateFirst (key : String) (f : Email → Email)
    (hf : ∀ x, (f x).id = x.id) (es : List Email) (e : Email)
    (h : findEmail key es = some e) :
    findEmail key (updateFirst key f es) = some (f e) := by
  induction es with
  | nil => simp [findEmail] at h
  | cons x rest ih =>
    by_cases hx : x.id == key
    · have hfe : findEmail key (x :: rest) = some x := by
        simp [findEmail, List.find?_cons, hx]
      rw [hfe] at h
      cases h
      simp [updateFirst, hx, findEmail, List.find?_cons, hf, hx]
    · have hfe : findEmail key (x :: rest) = findEmail key rest := by
        simp [findEmail, List.find?_cons, hx]
      rw [hfe] at h
      have := ih h
      simp [updateFirst, hx, findEmail, List.find?_cons, this]
      simpa [findEmail] using this

/-- Removing a present identifier shrinks the slice by exactly one. -/
theorem removeFirst_length (key : String) (es : List Email) (e : Email)
    (h : findEmail key es = some e) :
    (removeFirst key es).length + 1 = es.length := by
  induction es with
  | nil => simp [findEmail] at h
  | cons x rest ih =>
    by_cases hx : x.id == key
    · simp [removeFirst, hx]
    · have hfe : findEmail key (x :: rest) = findEmail key rest := by
        simp [findEmail, List.find?_cons, hx]
      rw [hfe] at h
      simp [removeFirst, hx, ih h]

/-- With unique identifiers, no email with the removed identifier remains
after removal. -/
theorem removeFirst_not_mem (key : String) (es : List Email)
    (hnd : (es.map Email.id).Nodup) :
    ∀ x ∈ removeFirst key es, x.id ≠ key := by
  induction es with
  | nil => simp [removeFirst]
  | cons e rest ih =>
    simp only [List.map_cons, List.nodup_cons] at hnd
    by_cases he : e.id == key
    · intro x hx
      have hkey : e.id = key := by simpa using he
      simp only [removeFirst, he, if_true] at hx
      intro hxk
      exact hnd.1 (by rw [hkey, ← hxk]; exact List.mem_map_of_mem _ hx)
    · intro x hx
      simp only [removeFirst, he, if_false] at hx
      rcases List.mem_cons.mp hx with h | h
      · subst h; simpa using he
      · exact ih hnd.2 x h

/-- C1 (amended): for every active message id, `MarkFailed(id, reason,
true)` records `reason` as the message's last-error, stamps updated-time,
reverts its status to `queued`, increments its retry count by exactly one,
leaves `Size()` unchanged, and sets its scheduled-not-before timestamp to
now plus (retryCount × 5 minutes) — a linear, not exponential, backoff
whose base delay is the fixed constant `5 * time.Minute`, not a configured
duration; `MarkFailed` fails with `NotFound` if id is absent. -/
theorem markFailed_retry_spec (q : MemoryQueue) (now : Nat)
    (key reason : String) :
    (findEmail key q.emails = none →
      q.MarkFailed now key reason true = Except.error QueueError.emailNotFound) ∧
    ∀ e, findEmail key q.emails = some e →
      ∃ e2 q2, q.MarkFailed now key reason true = Except.ok (e2, q2) ∧
        e2.lastError = reason ∧ e2.updatedAt = now ∧
        e2.status = Status.queued ∧ e2.retryCount = e.retryCount + 1 ∧
        e2.scheduledAt = some (now + e2.retryCount * (5 * timeMinute)) ∧
        q2.Size = q.Size ∧ findEmail key q2.emails = some e2 := by
  constructor
  · intro h
    simp [MemoryQueue.MarkFailed, h]
  · intro e h
    refine ⟨failRetryUpdate now reason e,
      { q with emails := updateFirst key (failRetryUpdate now reason) q.emails },
      ?_, rfl, rfl, rfl, rfl, rfl, ?_, ?_⟩
    · simp [MemoryQueue.MarkFailed, h]
    · simp [MemoryQueue.Size, updateFirst_length]
    · exact findEmail_updateFirst key (failRetryUpdate now reason)
        (fun x => rfl) q.emails e h

/-- Witness for C1: marking the concrete queued message "m1" failed with
retry at instant 7 requeues it with retry count 1 and schedule
`7 + 1 × 5 minutes`, leaving the size at 1; an absent id "zz" is
NotFound. -/
theorem markFailed_retry_spec_witness :
    (∃ e2 q2, sampleQueue.MarkFailed 7 "m1" "boom" true = Except.ok (e2, q2) ∧
      e2.lastError = "boom" ∧ e2.updatedAt = 7 ∧ e2.status = Status.queued ∧
      e2.retryCount = sampleQueuedEmail.retryCount + 1 ∧
      e2.scheduledAt = some (7 + e2.retryCount * (5 * timeMinute)) ∧
      q2.Size = sampleQueue.Size ∧ findEmail "m1" q2.emails = some e2) ∧
    sampleQueue.MarkFailed 7 "zz" "boom" true =
      Except.error QueueError.emailNotFound := by
  exact ⟨(markFailed_retry_spec sampleQueue 7 "m1" "boom").2 sampleQueuedEmail rfl,
    (markFailed_retry_spec sampleQueue 7 "zz" "boom").1 rfl⟩

/-- Counterexample for C1 as stated: the claim calls the backoff base delay
"a configured duration".  The repository's queue configuration does carry a
`retryDelay` field, but `MarkFailed` hardcodes `5 * time.Minute` and takes
no configuration at all.  Under the legitimate configuration
`cexQueueConfig` (retry delay = one minute), the first retry of "m1" at
instant 0 would have to be scheduled at `retryCount × retryDelay = 1`
minute per the claim, yet the code schedules it at 5 minutes. -/
theorem markFailed_configured_delay_counterexample :
    (sampleQueue.MarkFailed 0 "m1" "boom" true).toOption.map
        (fun p => p.1.scheduledAt) = some (some (5 * timeMinute)) ∧
    1 * cexQueueConfig.retryDelay = timeMinute ∧
    5 * timeMinute ≠ 1 * cexQueueConfig.retryDelay := by
  refine ⟨rfl, rfl, by decide⟩

/-- C7: `MarkDelivered(id)` fails with `NotFound` when id is not in the
active set; when id is active it returns the message updated to status
`delivered` with delivered-time and updated-time stamped, and removes it
from the active set, so `Size()` decreases by exactly one and — under the
unique-identifier invariant the queue relies on — the identifier is no
longer found and no subsequent `Dequeue` returns it. -/
theorem markDelivered_spec (q : MemoryQueue) (now : Nat) (key : String) :
    (findEmail key q.emails = none →
      q.MarkDelivered now key = Except.error QueueError.emailNotFound) ∧
    ∀ e, findEmail key q.emails = some e →
      ∃ e2 q2, q.MarkDelivered now key = Except.ok (e2, q2) ∧
        e2.status = Status.delivered ∧ e2.deliveredAt = some now ∧
        e2.updatedAt = now ∧ e2.id = key ∧ q2.Size + 1 = q.Size ∧
        ((q.emails.map Email.id).Nodup →
          findEmail key q2.emails = none ∧
          ∀ t c out q3, q2.Dequeue t c = Except.ok (out, q3) →
            ∀ x ∈ out, x.id ≠ key) := by
  constructor
  · intro h
    simp [MemoryQueue.MarkDelivered, h]
  · intro e h
    refine ⟨deliveredUpdate now e, { q with emails := removeFirst key q.emails },
      ?_, rfl, rfl, rfl, (findEmail_some key q.emails e h).2, ?_, ?_⟩
    · simp [MemoryQueue.MarkDelivered, h]
    · simpa [MemoryQueue.Size] using removeFirst_length key q.emails e h
    · intro hnd
      have hnone : findEmail key (removeFirst key q.emails) = none :=
        (findEmail_none _ _).mpr (removeFirst_not_mem key q.emails hnd)
      refine ⟨hnone, ?_⟩
      intro t c out q3 hdq x hx
      have h2 := hdq
      simp only [MemoryQueue.Dequeue, Except.ok.injEq, Prod.mk.injEq] at h2
      rw [← h2.1, dequeueLoop_fst] at hx
      obtain ⟨y, hy, hxy⟩ := List.mem_map.mp hx
      have hyin : y ∈ removeFirst key q.emails :=
        List.mem_of_mem_filter (List.take_subset _ _ hy)
      have hid := removeFirst_not_mem key q.emails hnd y hyin
      rw [← hxy]
      simpa [markSending] using hid

/-- Witness for C7: delivering the concrete message "m1" at instant 3
empties the one-element queue, and an absent id "zz" is NotFound. -/
theorem markDelivered_spec_witness :
    (∃ e2 q2, sampleQueue.MarkDelivered 3 "m1" = Except.ok (e2, q2) ∧
      e2.status = Status.delivered ∧ e2.deliveredAt = some 3 ∧
      e2.updatedAt = 3 ∧ e2.id = "m1" ∧ q2.Size + 1 = sampleQueue.Size ∧
      ((sampleQueue.emails.map Email.id).Nodup →
        findEmail "m1" q2.emails = none ∧
        ∀ t c out q3, q2.Dequeue t c = Except.ok (out, q3) →
          ∀ x ∈ out, x.id ≠ "m1")) ∧
    sampleQueue.MarkDelivered 3 "zz" = Except.error QueueError.emailNotFound := by
  exact ⟨(markDelivered_spec sampleQueue 3 "m1").2 sampleQueuedEmail rfl,
    (markDelivered_spec sampleQueue 3 "zz").1 rfl⟩

/-- C2 (amended): when the active-set size is below capacity, `Enqueue(m)`
succeeds, appends `m` with only its updated-time stamped — the message's
status is preserved, not set to `queued` (all in-repo callers set `queued`
before enqueueing) — and `Size()` grows by exactly one; when `m` already
has status `queued`, is not future-scheduled and no previously stored
message is ready, a subsequent `Dequeue(1)` with no scheduling delay
returns exactly `m` with status `sending`.  At capacity, `Enqueue` fails
with `QueueFull`, leaving the state and `Size()` unchanged. -/
theorem enqueue_spec (q : MemoryQueue) (now : Nat) (e : Email) :
    (q.Size < q.maxSize →
      q.Enqueue now e =
        Except.ok { q with emails := q.emails ++ [{ e with updatedAt := now }] } ∧
      ∀ q2, q.Enqueue now e = Except.ok q2 → q2.Size = q.Size + 1) ∧
    (q.maxSize ≤ q.Size → q.Enqueue now e = Except.error QueueError.queueFull) ∧
    (q.Size < q.maxSize → e.status = Status.queued → schedFuture now e = false →
      (∀ x ∈ q.emails, readyEmail now x = false) →
      ∀ q2, q.Enqueue now e = Except.ok q2 →
        ∃ q3, q2.Dequeue now 1 =
            Except.ok ([markSending now { e with updatedAt := now }], q3) ∧
          (markSending now { e with updatedAt := now }).status = Status.sending ∧
          (markSending now { e with updatedAt := now }).updatedAt = now) := by
  have hokform : q.Size < q.maxSize →
      q.Enqueue now e =
        Except.ok { q with emails := q.emails ++ [{ e with updatedAt := now }] } := by
    intro hlt
    have hn : ¬ q.maxSize ≤ q.emails.length := Nat.not_le.mpr hlt
    simp [MemoryQueue.Enqueue, hn]
  refine ⟨fun hlt => ⟨hokform hlt, ?_⟩, ?_, ?_⟩
  · intro q2 h2
    rw [hokform hlt] at h2
    cases h2
    simp [MemoryQueue.Size]
  · intro hge
    simp only [MemoryQueue.Size] at hge
    simp [MemoryQueue.Enqueue, hge]
  · intro hlt hst hsched hall q2 h2
    rw [hokform hlt] at h2
    cases h2
    have hready : readyEmail now { e with updatedAt := now } = true := by
      simp only [readyEmail, Bool.and_eq_true, Bool.not_eq_true']
      constructor
      · have hs : schedFuture now { e with updatedAt := now } = schedFuture now e := rfl
        rw [hs, hsched]
      · simpa using hst
    have hfilter : (q.emails ++ [{ e with updatedAt := now }]).filter (readyEmail now) =
        [{ e with updatedAt := now }] := by
      rw [List.filter_append]
      rw [List.filter_eq_nil_iff.mpr (by intro x hx; simp [hall x hx])]
      simp [hready]
    refine ⟨{ q with emails :=
      (dequeueLoop now 1 (q.emails ++ [{ e with updatedAt := now }])).2 }, ?_, rfl, rfl⟩
    simp only [MemoryQueue.Dequeue, Except.ok.injEq, Prod.mk.injEq]
    constructor
    · rw [dequeueLoop_fst]
      simp [hfilter]
    · trivial

/-- Witness for C2: enqueueing into a zero-capacity queue fails with
QueueFull, and enqueueing the concrete queued message into an empty
capacity-10 queue makes the next `Dequeue(1)` return it as sending. -/
theorem enqueue_spec_witness :
    (NewMemoryQueue 0).Enqueue 0 sampleQueuedEmail =
      Except.error QueueError.queueFull ∧
    ∃ q3, MemoryQueue.Dequeue { emails := [] ++
          [{ sampleQueuedEmail with updatedAt := 0 }], maxSize := 10 } 0 1 =
        Except.ok ([markSending 0 { sampleQueuedEmail with updatedAt := 0 }], q3) ∧
      (markSending 0 { sampleQueuedEmail with updatedAt := 0 }).status =
        Status.sending ∧
      (markSending 0 { sampleQueuedEmail with updatedAt := 0 }).updatedAt = 0 := by
  constructor
  · exact (enqueue_spec (NewMemoryQueue 0) 0 sampleQueuedEmail).2.1 (by decide)
  · exact (enqueue_spec (NewMemoryQueue 10) 0 sampleQueuedEmail).2.2 (by decide)
      rfl rfl (by simp [NewMemoryQueue]) _ rfl

/-- Counterexample for C2 as stated: the claim says a successful `Enqueue`
"inserts m at status queued".  Enqueueing `pendingEmail` (status `pending`)
into an empty queue below capacity succeeds, yet the stored message keeps
status `pending` and an immediate `Dequeue(1)` with no scheduling delay
returns nothing instead of the message. -/
theorem enqueue_status_counterexample :
    (NewMemoryQueue 10).Enqueue 0 pendingEmail =
      Except.ok { emails := [{ pendingEmail with updatedAt := 0 }], maxSize := 10 } ∧
    ({ pendingEmail with updatedAt := 0 } : Email).status ≠ Status.queued ∧
    MemoryQueue.Dequeue
        { emails := [{ pendingEmail with updatedAt := 0 }], maxSize := 10 } 0 1 =
      Except.ok (([] : List Email),
        { emails := [{ pendingEmail with updatedAt := 0 }], maxSize := 10 }) := by
  refine ⟨rfl, by decide, rfl⟩

/-- C4 (amended): for every delivery attempt that fails, the worker decides
retry eligibility as (the message's current retry count < maxRetry) and
calls `MarkFailed` with that decision, where maxRetry is the Service's
fixed default of 5 set by `NewService` — it is not supplied as a
construction parameter. -/
theorem worker_retry_decision (cfg : DeliveryConfig) (q : MemoryQueue)
    (now : Nat) (e : Email) (errText : String) :
    (NewService cfg).maxRetry = 5 ∧
    shouldRetryDecision (NewService cfg) e = decide (e.retryCount < 5) ∧
    workerHandleOutcome (NewService cfg) q now e (some errText) =
      q.MarkFailed now e.id errText (decide (e.retryCount < 5)) := by
  exact ⟨rfl, rfl, rfl⟩

/-- Counterexample for C4 as stated: the claim has maxRetry "supplied to
the Delivery Service as a construction parameter".  `NewService` takes only
the delivery configuration (workers, DNS TTL, connection timeout, pool
size — no retry bound) and fixes `maxRetry` to the literal 5, so no
constructor input can realise any other bound such as 7; concretely, every
configuration yields `maxRetry = 5`. -/
theorem maxRetry_not_construction_parameter :
    ¬ maxRetrySuppliedAtConstruction ∧
    (NewService { workers := 1, dnsCacheTTL := 0, connectionTimeout := 0,
                  connectionPoolSize := 0 }).maxRetry = 5 := by
  constructor
  · intro h
    obtain ⟨cfg, hc⟩ := h 7
    have h5 : (NewService cfg).maxRetry = 5 := rfl
    rw [h5] at hc
    exact absurd hc (by decide)
  · rfl

/-!  Lemmas about the per-email host loop. -/

/-- Trace of the host loop: the hosts actually attempted are the maximal
failing prefix followed by the first succeeding host, if any. -/
theorem tryHosts_trace (send : String → Option String) (mxs : List MX)
    (le : Option String) :
    (tryHosts send mxs le).1 =
      (mxs.map MX.host).takeWhile (fun h => (send h).isSome) ++
      ((mxs.map MX.host).dropWhile (fun h => (send h).isSome)).take 1 := by
  induction mxs generalizing le with
  | nil => cases le <;> simp [tryHosts]
  | cons mx rest ih =>
    cases hsend : send mx.host with
    | none => simp [tryHosts, hsend, List.takeWhile_cons, List.dropWhile_cons]
    | some msg =>
      simp [tryHosts, hsend, List.takeWhile_cons, List.dropWhile_cons, ih]

/-- When some host succeeds, the host loop reports success. -/
theorem tryHosts_success (send : String → Option String) :
    ∀ (mxs : List MX) (le : Option String),
      (∃ mx ∈ mxs, send mx.host = none) →
      (tryHosts send mxs le).2 = Except.ok () := by
  intro mxs
  induction mxs with
  | nil => intro le h; simp at h
  | cons mx rest ih =>
    intro le h
    cases hsend : send mx.host with
    | none => simp [tryHosts, hsend]
    | some msg =>
      obtain ⟨y, hy, hys⟩ := h
      rcases List.mem_cons.mp hy with h1 | h2
      · rw [h1, hsend] at hys
        cases hys
      · simp only [tryHosts, hsend]
        exact ih (some msg) ⟨y, h2, hys⟩

/-- When every host fails, the host loop fails with `allTargetsFailed`
wrapping the error of the last host. -/
theorem tryHosts_allFail (send : String → Option String) :
    ∀ (mxs : List MX) (le : Option String),
      (∀ mx ∈ mxs, (send mx.host).isSome = true) → mxs ≠ [] →
      ∃ mx msg, mxs.getLast? = some mx ∧ send mx.host = some msg ∧
        (tryHosts send mxs le).2 =
          Except.error (DeliveryError.allTargetsFailed msg) := by
  intro mxs
  induction mxs with
  | nil => intro le h hne; exact absurd rfl hne
  | cons mx rest ih =>
    intro le h hne
    have hmx : (send mx.host).isSome = true := h mx (List.mem_cons_self _ _)
    obtain ⟨msg, hmsg⟩ := Option.isSome_iff_exists.mp hmx
    cases rest with
    | nil =>
      refine ⟨mx, msg, rfl, hmsg, ?_⟩
      simp [tryHosts, hmsg]
    | cons mx2 rest2 =>
      obtain ⟨mx3, msg3, hlast, hsend3, hres⟩ :=
        ih (some msg) (fun x hx => h x (List.mem_cons_of_mem _ hx)) (by simp)
      refine ⟨mx3, msg3, ?_, hsend3, ?_⟩
      · rw [List.getLast?_cons_cons]
        exact hlast
      · simp only [tryHosts, hmsg]
        exact hres

/-- The host loop never produces the no-recipients error. -/
theorem tryHosts_ne_noRecipients (send : String → Option String) :
    ∀ (mxs : List MX) (le : Option String),
      (tryHosts send mxs le).2 ≠ Except.error DeliveryError.noRecipients := by
  intro mxs
  induction mxs with
  | nil =>
    intro le
    cases le <;> simp [tryHosts]
  | cons mx rest ih =>
    intro le
    cases hsend : send mx.host with
    | none => simp [tryHosts, hsend]
    | some msg =>
      simp only [tryHosts, hsend]
      exact ih (some msg)

/-- C5: the per-message attempt fails with the no-recipients error when the
To list is empty and with the invalid-domain error when the first To
address has no "@"-delimited domain part; otherwise it tries the resolver's
hosts in order, stopping and reporting success at the first host that
succeeds; if every host fails it returns the all-targets-failed error
wrapping the last per-host error, and if the resolver returned zero hosts
it returns the no-targets error. -/
theorem processEmail_spec (e : Email) (resolve : String → Except String (List MX))
    (send : String → Option String) :
    (e.toAddrs = [] →
      processEmail e resolve send = ([], Except.error DeliveryError.noRecipients)) ∧
    (∀ a rest, e.toAddrs = a :: rest → extractDomain a = "" →
      processEmail e resolve send = ([], Except.error DeliveryError.invalidDomain)) ∧
    (∀ a rest mxs, e.toAddrs = a :: rest → extractDomain a ≠ "" →
      resolve (extractDomain a) = Except.ok mxs →
      (processEmail e resolve send).1 =
        (mxs.map MX.host).takeWhile (fun h => (send h).isSome) ++
        ((mxs.map MX.host).dropWhile (fun h => (send h).isSome)).take 1 ∧
      ((∃ mx ∈ mxs, send mx.host = none) →
        (processEmail e resolve send).2 = Except.ok ()) ∧
      ((∀ mx ∈ mxs, (send mx.host).isSome = true) → mxs ≠ [] →
        ∃ mx msg, mxs.getLast? = some mx ∧ send mx.host = some msg ∧
          (processEmail e resolve send).2 =
            Except.error (DeliveryError.allTargetsFailed msg)) ∧
      (mxs = [] →
        processEmail e resolve send =
          ([], Except.error DeliveryError.noTargets))) := by
  refine ⟨?_, ?_, ?_⟩
  · intro h
    simp [processEmail, h]
  · intro a rest h hd
    simp [processEmail, h, hd]
  · intro a rest mxs h hd hr
    have hpe : processEmail e resolve send = tryHosts send mxs none := by
      simp [processEmail, h, hd, hr]
    refine ⟨?_, ?_, ?_, ?_⟩
    · rw [hpe]
      exact tryHosts_trace send mxs none
    · intro hex
      rw [hpe]
      exact tryHosts_success send mxs none hex
    · intro hall hne
      obtain ⟨mx, msg, h1, h2, h3⟩ := tryHosts_allFail send mxs none hall hne
      exact ⟨mx, msg, h1, h2, by rw [hpe]; exact h3⟩
    · intro hmxnil
      subst hmxnil
      rw [hpe]
      rfl

/-- Witness for C5: a concrete run of each branch — empty To list, a
domainless first recipient, a first-host failure followed by a second-host
success, a run where the only host fails, and a resolver returning zero
hosts. -/
theorem processEmail_spec_witness :
    processEmail emptyEmail (fun _ => Except.ok []) (fun _ => none) =
      ([], Except.error DeliveryError.noRecipients) ∧
    processEmail { emptyEmail with toAddrs := ["a@b@c"] }
        (fun _ => Except.ok []) (fun _ => none) =
      ([], Except.error DeliveryError.invalidDomain) ∧
    (processEmail sampleQueuedEmail
        (fun _ => Except.ok [{ host := "mx1", pref := 10 },
                             { host := "mx2", pref := 20 }])
        (fun h => if h = "mx1" then some "dial error" else none)).2 =
      Except.ok () ∧
    (∃ mx msg, ([{ host := "mx1", pref := 10 }] : List MX).getLast? = some mx ∧
      (fun _ => some "conn refused" : String → Option String) mx.host = some msg ∧
      (processEmail sampleQueuedEmail
        (fun _ => Except.ok [{ host := "mx1", pref := 10 }])
        (fun _ => some "conn refused")).2 =
        Except.error (DeliveryError.allTargetsFailed msg)) ∧
    processEmail sampleQueuedEmail (fun _ => Except.ok []) (fun _ => none) =
      ([], Except.error DeliveryError.noTargets) := by
  refine ⟨?_, ?_, ?_, ?_, ?_⟩
  · exact (processEmail_spec emptyEmail (fun _ => Except.ok []) (fun _ => none)).1 rfl
  · exact (processEmail_spec { emptyEmail with toAddrs := ["a@b@c"] }
      (fun _ => Except.ok []) (fun _ => none)).2.1 "a@b@c" [] rfl (by decide)
  · exact ((processEmail_spec sampleQueuedEmail _ _).2.2 "user@example.com" [] _
      rfl (by decide) rfl).2.1
      ⟨{ host := "mx2", pref := 20 }, by simp, by decide⟩
  · exact ((processEmail_spec sampleQueuedEmail
      (fun _ => Except.ok [{ host := "mx1", pref := 10 }])
      (fun _ => some "conn refused")).2.2 "user@example.com" [] _
      rfl (by decide) rfl).2.2.1 (fun mx _ => rfl) (by simp)
  · exact ((processEmail_spec sampleQueuedEmail _ _).2.2 "user@example.com" [] _
      rfl (by decide) rfl).2.2.2 rfl

/-- Lookup in a cache whose head entry carries the looked-up domain finds
that entry. -/
theorem lookupCache_cons_self (cache : DnsCache) (domain : String)
    (entry : DnsCacheEntry) :
    lookupCache ((domain, entry) :: cache) domain = some entry := by
  simp [lookupCache, List.find?_cons]

/-- C6: a DNS lookup that finds a present, non-expired cache entry returns
its host list without calling the resolver and leaves the cache unchanged;
on a miss or an expired entry it calls the injected resolver and, on
success, stores the result with expiry = now + TTL before returning it.
Consequently (for a domain the resolver resolves successfully) two
sequential resolutions within the TTL window invoke the resolver at most
once combined, and a resolution after TTL expiry invokes it again. -/
theorem dns_cache_spec (ttl : Nat) (resolve : String → Except String (List MX))
    (cache : DnsCache) (t0 t1 : Nat) (domain : String) (mxs : List MX) :
    (∀ entry, lookupCache cache domain = some entry → t0 < entry.expiresAt →
      getMXRecords ttl resolve cache t0 domain =
        (Except.ok entry.mx, cache, false)) ∧
    (lookupCache cache domain = none → resolve domain = Except.ok mxs →
      getMXRecords ttl resolve cache t0 domain =
        (Except.ok mxs,
          (domain, { mx := mxs, expiresAt := t0 + ttl }) :: cache, true)) ∧
    (∀ entry, lookupCache cache domain = some entry → entry.expiresAt ≤ t0 →
      resolve domain = Except.ok mxs →
      getMXRecords ttl resolve cache t0 domain =
        (Except.ok mxs,
          (domain, { mx := mxs, expiresAt := t0 + ttl }) :: cache, true)) ∧
    (resolve domain = Except.ok mxs → t0 ≤ t1 → t1 < t0 + ttl →
      ¬ ((getMXRecords ttl resolve cache t0 domain).2.2 = true ∧
         (getMXRecords ttl resolve
           (getMXRecords ttl resolve cache t0 domain).2.1 t1 domain).2.2 = true)) ∧
    (resolve domain = Except.ok mxs → lookupCache cache domain = none →
      t0 + ttl ≤ t1 →
      (getMXRecords ttl resolve
        (getMXRecords ttl resolve cache t0 domain).2.1 t1 domain).2.2 = true) := by
  have hhit : ∀ entry, lookupCache cache domain = some entry →
      t0 < entry.expiresAt →
      getMXRecords ttl resolve cache t0 domain =
        (Except.ok entry.mx, cache, false) := by
    intro entry hl hfresh
    simp [getMXRecords, hl, hfresh]
  have hmiss : lookupCache cache domain = none → resolve domain = Except.ok mxs →
      getMXRecords ttl resolve cache t0 domain =
        (Except.ok mxs,
          (domain, { mx := mxs, expiresAt := t0 + ttl }) :: cache, true) := by
    intro hl hres
    simp [getMXRecords, hl, resolveAndCache, hres]
  have hexpired : ∀ entry, lookupCache cache domain = some entry →
      entry.expiresAt ≤ t0 → resolve domain = Except.ok mxs →
      getMXRecords ttl resolve cache t0 domain =
        (Except.ok mxs,
          (domain, { mx := mxs, expiresAt := t0 + ttl }) :: cache, true) := by
    intro entry hl hstale hres
    have hn : ¬ t0 < entry.expiresAt := Nat.not_lt.mpr hstale
    simp [getMXRecords, hl, hn, resolveAndCache, hres]
  refine ⟨hhit, hmiss, hexpired, ?_, ?_⟩
  · intro hres hle hwin hboth
    cases hl : lookupCache cache domain with
    | some entry =>
      by_cases hfresh : t0 < entry.expiresAt
      · rw [hhit entry hl hfresh] at hboth
        exact absurd hboth.1 (by simp)
      · have hexp := hexpired entry hl (Nat.not_lt.mp hfresh) hres
        rw [hexp] at hboth
        have h2 := hboth.2
        have hl2 := lookupCache_cons_self cache domain
          ({ mx := mxs, expiresAt := t0 + ttl } : DnsCacheEntry)
        simp [getMXRecords, hl2, hwin] at h2
    | none =>
      have hm := hmiss hl hres
      rw [hm] at hboth
      have h2 := hboth.2
      have hl2 := lookupCache_cons_self cache domain
        ({ mx := mxs, expiresAt := t0 + ttl } : DnsCacheEntry)
      simp [getMXRecords, hl2, hwin] at h2
  · intro hres hl hafter
    have hm := hmiss hl hres
    rw [hm]
    have hl2 := lookupCache_cons_self cache domain
      ({ mx := mxs, expiresAt := t0 + ttl } : DnsCacheEntry)
    have hn : ¬ t1 < t0 + ttl := Nat.not_lt.mpr hafter
    simp [getMXRecords, hl2, hn, resolveAndCache, hres]

/-- Witness for C6: with TTL 100 and an empty cache, resolving
"example.com" at instant 0 calls the resolver and stores an entry expiring
at 100; a second resolution at instant 50 is then not combined with a
second resolver call; a resolution at instant 150 calls the resolver
again; and a fresh cache entry expiring at 40 is returned directly at
instant 10 without a resolver call. -/
theorem dns_cache_spec_witness :
    (getMXRecords 100 (fun _ => Except.ok [{ host := "mx", pref := 10 }])
        [] 0 "example.com" =
      (Except.ok [{ host := "mx", pref := 10 }],
        [("example.com", { mx := [{ host := "mx", pref := 10 }],
                           expiresAt := 100 })], true)) ∧
    ¬ ((getMXRecords 100 (fun _ => Except.ok [{ host := "mx", pref := 10 }])
          [] 0 "example.com").2.2 = true ∧
       (getMXRecords 100 (fun _ => Except.ok [{ host := "mx", pref := 10 }])
          (getMXRecords 100 (fun _ => Except.ok [{ host := "mx", pref := 10 }])
            [] 0 "example.com").2.1 50 "example.com").2.2 = true) ∧
    (getMXRecords 100 (fun _ => Except.ok [{ host := "mx", pref := 10 }])
        (getMXRecords 100 (fun _ => Except.ok [{ host := "mx", pref := 10 }])
          [] 0 "example.com").2.1 150 "example.com").2.2 = true ∧
    getMXRecords 100 (fun _ => Except.ok [{ host := "mx", pref := 10 }])
        [("example.com", { mx := [{ host := "mx", pref := 10 }],
                           expiresAt := 40 })] 10 "example.com" =
      (Except.ok [{ host := "mx", pref := 10 }],
        [("example.com", { mx := [{ host := "mx", pref := 10 }],
                           expiresAt := 40 })], false) := by
  refine ⟨?_, ?_, ?_, ?_⟩
  · exact (dns_cache_spec 100 (fun _ => Except.ok [{ host := "mx", pref := 10 }])
      [] 0 0 "example.com" [{ host := "mx", pref := 10 }]).2.1 rfl rfl
  · exact (dns_cache_spec 100 (fun _ => Except.ok [{ host := "mx", pref := 10 }])
      [] 0 50 "example.com" [{ host := "mx", pref := 10 }]).2.2.2.1 rfl
      (by decide) (by decide)
  · exact (dns_cache_spec 100 (fun _ => Except.ok [{ host := "mx", pref := 10 }])
      [] 0 150 "example.com" [{ host := "mx", pref := 10 }]).2.2.2.2 rfl rfl
      (by decide)
  · exact (dns_cache_spec 100 (fun _ => Except.ok [{ host := "mx", pref := 10 }])
      [("example.com", { mx := [{ host := "mx", pref := 10 }],
                         expiresAt := 40 })] 10 0 "example.com"
      [{ host := "mx", pref := 10 }]).1
      { mx := [{ host := "mx", pref := 10 }], expiresAt := 40 } rfl (by decide)

/-- C8 (amended): rendering assembles the headers From, To (comma-joined),
Subject, Date, MIME-Version: 1.0, plus Cc when non-empty, plus every
custom header whose key is not (case-insensitively) one of the reserved
headers From/To/Cc/Bcc/Subject/Date/MIME-Version/Content-Type — custom
headers colliding with that reserved set, which includes Bcc, are silently
dropped — plus Content-Type text/html when an HTML body is present, else
text/plain; the transmitted body is the HTML body if present, else the
plain body. -/
theorem writeEmail_rendering (dateStr : String) (e : Email) :
    renderedHeaders dateStr e =
      ["From: " ++ e.fromAddr,
       "To: " ++ String.intercalate ", " e.toAddrs,
       "Subject: " ++ e.subject,
       "Date: " ++ dateStr,
       "MIME-Version: 1.0"] ++
      (if e.cc = [] then [] else ["Cc: " ++ String.intercalate ", " e.cc]) ++
      (e.headers.filter (fun kv => !isStandardHeader kv.1)).map
        (fun kv => kv.1 ++ ": " ++ kv.2) ++
      [if e.html = "" then "Content-Type: text/plain; charset=utf-8"
       else "Content-Type: text/html; charset=utf-8"] ∧
    (∀ k v, (k, v) ∈ e.headers → isStandardHeader k = false →
      (k ++ ": " ++ v) ∈ renderedHeaders dateStr e) ∧
    writeEmail dateStr e =
      String.join ((renderedHeaders dateStr e).map (fun h => h ++ "\r\n")) ++
        "\r\n" ++ (if e.html = "" then e.body else e.html) := by
  refine ⟨?_, ?_, ?_⟩
  · by_cases hcc : e.cc = []
    · by_cases hh : e.html = ""
      · simp [renderedHeaders, hcc, hh]
      · simp [renderedHeaders, hcc, hh]
    · have hlen : 0 < e.cc.length := List.length_pos.mpr hcc
      by_cases hh : e.html = ""
      · simp [renderedHeaders, hcc, hlen, hh]
      · simp [renderedHeaders, hcc, hlen, hh]
  · intro k v hkv hns
    simp only [renderedHeaders]
    refine List.mem_append.mpr (Or.inl (List.mem_append.mpr (Or.inr ?_)))
    exact List.mem_map.mpr ⟨(k, v), List.mem_filter.mpr ⟨hkv, by simp [hns]⟩, rfl⟩
  · by_cases hh : e.html = ""
    · simp [writeEmail, hh]
    · simp [writeEmail, hh]

/-- Witness for C8: the genuinely custom header of `bccHeaderEmail` is
rendered. -/
theorem writeEmail_rendering_witness :
    ("X-Priority" ++ ": " ++ "1") ∈ renderedHeaders "D" bccHeaderEmail := by
  exact (writeEmail_rendering "D" bccHeaderEmail).2.1 "X-Priority" "1"
    (by decide) (by decide)

/-- Counterexample for C8 as stated: the claim's reserved set is exactly
From/To/Cc/Subject/Date/MIME-Version/Content-Type, so the custom "Bcc"
header of `bccHeaderEmail` is not in it and per the claim would be
rendered; the code's `isStandardHeader` also covers "bcc" and silently
drops it — no "Bcc" line appears among the rendered headers. -/
theorem bcc_header_counterexample :
    isSpecReservedHeader "Bcc" = false ∧
    isStandardHeader "Bcc" = true ∧
    ("Bcc", "hidden@c.test") ∈ bccHeaderEmail.headers ∧
    ¬ ("Bcc" ++ ": " ++ "hidden@c.test") ∈ renderedHeaders "D" bccHeaderEmail := by
  refine ⟨by decide, by decide, by decide, by decide⟩

/-- C9: every email accepted by the ingestion validation has a non-empty
To list and at least one non-blank body (plain or HTML); consequently the
attempt algorithm's no-recipients branch is unreachable for any message
that passed validation. -/
theorem validate_ok_deliverable (env : ValidateEnv) (maxMessageSize : Nat)
    (e : Email) (h : Email.Validate env maxMessageSize e = none) :
    e.toAddrs ≠ [] ∧
    (goTrim env.isSpace e.body ≠ "" ∨ goTrim env.isSpace e.html ≠ "") ∧
    ∀ resolve send, (processEmail e resolve send).2 ≠
      Except.error DeliveryError.noRecipients := by
  unfold Email.Validate at h
  split_ifs at h with h1 h2 h3 h4 h5 h6 h7 h8 h9
  refine ⟨?_, ?_, ?_⟩
  · intro hnil
    exact h3 (by simp [hnil])
  · by_contra hb
    push_neg at hb
    exact h8 ⟨hb.1, hb.2⟩
  · intro resolve send
    cases hto : e.toAddrs with
    | nil => exact absurd (by simp [hto]) h3
    | cons a rest =>
      by_cases hd : extractDomain a = ""
      · simp [processEmail, hto, hd]
      · cases hres : resolve (extractDomain a) with
        | error msg => simp [processEmail, hto, hd, hres]
        | ok mxs =>
          have hpe : (processEmail e resolve send).2 =
              (tryHosts send mxs none).2 := by
            simp [processEmail, hto, hd, hres]
          rw [hpe]
          exact tryHosts_ne_noRecipients send mxs none

/-- Witness for C9: the concrete sample email passes validation, and the
conclusions hold for it. -/
theorem validate_ok_deliverable_witness :
    Email.Validate sampleValidateEnv 1000 sampleQueuedEmail = none ∧
    sampleQueuedEmail.toAddrs ≠ [] ∧
    (goTrim sampleValidateEnv.isSpace sampleQueuedEmail.body ≠ "" ∨
      goTrim sampleValidateEnv.isSpace sampleQueuedEmail.html ≠ "") ∧
    ∀ resolve send, (processEmail sampleQueuedEmail resolve send).2 ≠
      Except.error DeliveryError.noRecipients := by
  have hv : Email.Validate sampleValidateEnv 1000 sampleQueuedEmail = none := by
    decide
  have h := validate_ok_deliverable sampleValidateEnv 1000 sampleQueuedEmail hv
  exact ⟨hv, h.1, h.2.1, h.2.2⟩

/-!  Lemmas about splitting an address on "@". -/

/-- Splitting always yields at least one part. -/
theorem splitOnChar_ne_nil (sep : Char) (l : List Char) :
    splitOnChar sep l ≠ [] := by
  cases l with
  | nil => simp [splitOnChar]
  | cons c cs =>
    simp only [splitOnChar]
    cases splitOnChar sep cs with
    | nil => simp
    | cons h t => by_cases hc : c = sep <;> simp [hc]

/-- The number of parts is one more than the number of separators. -/
theorem splitOnChar_length (sep : Char) (l : List Char) :
    (splitOnChar sep l).length = l.count sep + 1 := by
  induction l with
  | nil => simp [splitOnChar]
  | cons c cs ih =>
    cases hs : splitOnChar sep cs with
    | nil => exact absurd hs (splitOnChar_ne_nil sep cs)
    | cons h t =>
      rw [hs] at ih
      simp only [List.length_cons] at ih
      by_cases hc : c = sep
      · subst hc
        simp [splitOnChar, hs, List.count_cons_self]
        omega
      · simp [splitOnChar, hs, hc, List.count_cons_of_ne (fun hx => hc hx.symm)]
        omega

/-- Splitting a list that ends in the separator appends one empty part. -/
theorem splitOnChar_append_sep (sep : Char) (u : List Char) :
    splitOnChar sep (u ++ [sep]) = splitOnChar sep u ++ [[]] := by
  induction u with
  | nil => simp [splitOnChar]
  | cons c cs ih =>
    cases hs : splitOnChar sep cs with
    | nil => exact absurd hs (splitOnChar_ne_nil sep cs)
    | cons h t =>
      rw [hs] at ih
      by_cases hc : c = sep <;>
        simp [splitOnChar, ih, hs, hc]

/-- An address with a number of "@"s different from one extracts the empty
domain. -/
theorem extractDomain_eq_empty_of_count (s : String)
    (h : s.data.count '@' ≠ 1) : extractDomain s = "" := by
  have hlen : (splitOnChar '@' s.data).length ≠ 2 := by
    rw [splitOnChar_length]
    omega
  unfold extractDomain
  cases hs : splitOnChar '@' s.data with
  | nil => rfl
  | cons p t =>
    cases t with
    | nil => rfl
    | cons d t2 =>
      cases t2 with
      | nil =>
        rw [hs] at hlen
        simp at hlen
      | cons x t3 => rfl

/-- An address ending in "@" (empty domain part) extracts the empty
domain, whatever comes before. -/
theorem extractDomain_trailing_at (s : String) (u : List Char)
    (h : s.data = u ++ ['@']) : extractDomain s = "" := by
  unfold extractDomain
  rw [h, splitOnChar_append_sep]
  cases hs : splitOnChar '@' u with
  | nil => exact absurd hs (splitOnChar_ne_nil '@' u)
  | cons p t =>
    cases t with
    | nil => rfl
    | cons d t2 =>
      cases t2 with
      | nil => rfl
      | cons x t3 => rfl

/-- C10: domain extraction accepts only addresses containing exactly one
"@": for a first To address with zero "@" or with two or more "@" (even
when an "@"-delimited domain substring exists, e.g. "a@b@c"), and for an
address whose domain part after the single "@" is empty (it ends in "@",
e.g. "user@"), the delivery attempt fails with the invalid-domain
error. -/
theorem extractDomain_strict (e : Email) (a : String) (rest : List String)
    (resolve : String → Except String (List MX)) (send : String → Option String)
    (hto : e.toAddrs = a :: rest)
    (hbad : a.data.count '@' ≠ 1 ∨ ∃ u, a.data = u ++ ['@']) :
    extractDomain a = "" ∧
    processEmail e resolve send =
      ([], Except.error DeliveryError.invalidDomain) := by
  have hd : extractDomain a = "" := by
    rcases hbad with h | ⟨u, hu⟩
    · exact extractDomain_eq_empty_of_count a h
    · exact extractDomain_trailing_at a u hu
  refine ⟨hd, ?_⟩
  simp [processEmail, hto, hd]

/-- Witness for C10: the three concrete shapes — no "@" at all, two "@"s
with an "@"-delimited domain substring present, and a single "@" with an
empty domain part — all fail with the invalid-domain error. -/
theorem extractDomain_strict_witness :
    processEmail { emptyEmail with toAddrs := ["nodomain"] }
        (fun _ => Except.ok []) (fun _ => none) =
      ([], Except.error DeliveryError.invalidDomain) ∧
    processEmail { emptyEmail with toAddrs := ["x@b@c"] }
        (fun _ => Except.ok []) (fun _ => none) =
      ([], Except.error DeliveryError.invalidDomain) ∧
    processEmail { emptyEmail with toAddrs := ["user@"] }
        (fun _ => Except.ok []) (fun _ => none) =
      ([], Except.error DeliveryError.invalidDomain) := by
  refine ⟨?_, ?_, ?_⟩
  · exact (extractDomain_strict { emptyEmail with toAddrs := ["nodomain"] }
      "nodomain" [] (fun _ => Except.ok []) (fun _ => none) rfl
      (Or.inl (by decide))).2
  · exact (extractDomain_strict { emptyEmail with toAddrs := ["x@b@c"] }
      "x@b@c" [] (fun _ => Except.ok []) (fun _ => none) rfl
      (Or.inl (by decide))).2
  · exact (extractDomain_strict { emptyEmail with toAddrs := ["user@"] }
      "user@" [] (fun _ => Except.ok []) (fun _ => none) rfl
      (Or.inr ⟨['u', 's', 'e', 'r'], by decide⟩)).2

end EmailServer
